import Mathlib

/-
Verification of the World Coffee Tour map-prefetch script and the
spec-described post store.  The JavaScript map script (markers, grouping,
tile prefetching) is embedded shallowly: JS numbers stored in post data are
modelled as rationals (every JS number is a rational), the tile-index
mathematics is carried out over the reals, JS null/undefined is Option,
and the timer-driven request schedule is modelled as an explicit list of
timestamped emissions.
-/

namespace WCT

/-- A coffee post as consumed by the map script.  latitude and longitude
are JS numbers or null/undefined, modelled as Option rationals; continent,
country and city may be absent. -/
structure Post where
  latitude : Option ℚ
  longitude : Option ℚ
  continent : Option String
  country : Option String
  city : Option String
  title : String
  url : String
  deriving DecidableEq

/-- JS truthiness of a possibly-absent number: null, undefined and 0 are
falsy, every other (finite) number is truthy. -/
def truthyNum : Option ℚ → Bool
  | none => false
  | some v => v != 0

/-- JS string interpolation of a possibly-undefined string value:
interpolating undefined yields the text "undefined". -/
def jsShow : Option String → String
  | none => "undefined"
  | some s => s

/-- The coordinate guard used by the marker loop and the grouping loop:
post.latitude and post.longitude are both truthy. -/
def hasCoords (p : Post) : Bool :=
  truthyNum p.latitude && truthyNum p.longitude

/-- A Leaflet marker as created by the index-page loop: position plus the
bound popup HTML. -/
structure Marker where
  lat : ℚ
  lng : ℚ
  popup : String
  deriving DecidableEq

/-- The popup HTML bound to a marker (template literal of the source). -/
def markerPopup (p : Post) : String :=
  "<div style=\"text-align: center; min-width: 150px; color: #fff;\"><strong>"
    ++ p.title ++ "</strong><br>" ++ jsShow p.city ++ ", " ++ jsShow p.country
    ++ "<br><a href=\"" ++ p.url
    ++ "\" style=\"color: #d4a574;\">View Post →</a></div>"

/-- Marker creation loop of the index page: one marker per post whose
latitude and longitude are truthy. -/
def markersOf (posts : List Post) : List Marker :=
  posts.foldl
    (fun acc p =>
      if hasCoords p then
        acc ++ [{ lat := p.latitude.getD 0, lng := p.longitude.getD 0,
                  popup := markerPopup p }]
      else acc)
    []

/-- A latitude/longitude pair pushed into a group. -/
abbrev Coord := ℚ × ℚ

/-- Continent key normalization: toLowerCase then replace every whitespace
character with a dash (written over the character list of the string). -/
def normalizeContinent (s : String) : String :=
  ⟨(s.data.map Char.toLower).map (fun c => if c.isWhitespace then '-' else c)⟩

/-- Insert a coordinate under a key in an insertion-ordered association
list, mirroring a JS object used as a map: a fresh key is appended at the
end, an existing key gets the coordinate pushed onto its list. -/
def addCoord (m : List (String × List Coord)) (k : String) (c : Coord) :
    List (String × List Coord) :=
  if m.any (fun e => e.1 == k) then
    m.map (fun e => if e.1 == k then (e.1, e.2 ++ [c]) else e)
  else
    m ++ [(k, [c])]

/-- The three grouping objects built by prefetchTilesForCoffeePosts. -/
structure Groups where
  regions : List (String × List Coord)
  countries : List (String × List Coord)
  cities : List (String × List Coord)
  deriving DecidableEq

/-- Continent block of the grouping loop: a missing (undefined) continent
is falsy after the optional chain, the normalized key must be truthy and
different from "unknown". -/
def stepRegions (g : Groups) (c : Coord) : Option String → Groups
  | none => g
  | some s =>
      let k := normalizeContinent s
      if k != "" && k != "unknown" then
        { g with regions := addCoord g.regions k c }
      else g

/-- Country block of the grouping loop: the raw country string must be
truthy and different from "Unknown". -/
def stepCountries (g : Groups) (c : Coord) : Option String → Groups
  | none => g
  | some k =>
      if k != "" && k != "Unknown" then
        { g with countries := addCoord g.countries k c }
      else g

/-- City block of the grouping loop: the raw city string must be truthy
and different from "Unknown". -/
def stepCities (g : Groups) (c : Coord) : Option String → Groups
  | none => g
  | some k =>
      if k != "" && k != "Unknown" then
        { g with cities := addCoord g.cities k c }
      else g

/-- One iteration of the grouping forEach: skip posts whose coordinates
are not truthy, then run the continent, country and city blocks in
order. -/
def groupStep (g : Groups) (p : Post) : Groups :=
  if !(truthyNum p.latitude) || !(truthyNum p.longitude) then g
  else
    let coord : Coord := (p.latitude.getD 0, p.longitude.getD 0)
    stepCities (stepCountries (stepRegions g coord p.continent) coord p.country)
      coord p.city

/-- The grouping pass over all posts. -/
def buildGroups (posts : List Post) : Groups :=
  posts.foldl groupStep { regions := [], countries := [], cities := [] }

/-- A Leaflet LatLngBounds, south-west and north-east corners.  Modelled
from the spec: the Leaflet library (not part of this repository) builds
the bounding box of a list of coordinates and can pad it. -/
structure Bounds where
  swLat : ℚ
  swLng : ℚ
  neLat : ℚ
  neLng : ℚ
  deriving DecidableEq

/-- Modelled from the spec: L.latLngBounds builds the smallest bounding
box containing the given coordinates (the empty case is unreachable
behind the length guard of the caller). -/
def latLngBounds : List Coord → Bounds
  | [] => ⟨0, 0, 0, 0⟩
  | c :: cs =>
      cs.foldl
        (fun b d =>
          ⟨min b.swLat d.1, min b.swLng d.2, max b.neLat d.1, max b.neLng d.2⟩)
        ⟨c.1, c.2, c.1, c.2⟩

/-- Modelled from the spec: LatLngBounds.pad grows the box on each side by
the given fraction of its height and width. -/
def pad (b : Bounds) (r : ℚ) : Bounds :=
  let hBuf := |b.swLat - b.neLat| * r
  let wBuf := |b.swLng - b.neLng| * r
  ⟨b.swLat - hBuf, b.swLng - wBuf, b.neLat + hBuf, b.neLng + wBuf⟩

/-- Tile x index computed for a corner by getTileBounds:
floor((lng + 180) / 360 * 2 ^ zoom). -/
noncomputable def lonToTileX (lng : ℝ) (zoom : ℕ) : ℤ :=
  ⌊(lng + 180) / 360 * 2 ^ zoom⌋

/-- Tile y index computed for a corner by getTileBounds:
floor((1 - log(tan(lat * pi / 180) + 1 / cos(lat * pi / 180)) / pi) / 2 * 2 ^ zoom). -/
noncomputable def latToTileY (lat : ℝ) (zoom : ℕ) : ℤ :=
  ⌊(1 - Real.log (Real.tan (lat * Real.pi / 180)
      + 1 / Real.cos (lat * Real.pi / 180)) / Real.pi) / 2 * 2 ^ zoom⌋

/-- The min/max tile rectangle returned by getTileBounds. -/
structure TileBounds where
  minX : ℤ
  minY : ℤ
  maxX : ℤ
  maxY : ℤ
  deriving DecidableEq

/-- getTileBounds: project the south-west and north-east corners to tile
indices and return the componentwise min and max. -/
noncomputable def getTileBounds (bounds : Bounds) (zoom : ℕ) : TileBounds :=
  let swX := lonToTileX (bounds.swLng : ℝ) zoom
  let swY := latToTileY (bounds.swLat : ℝ) zoom
  let neX := lonToTileX (bounds.neLng : ℝ) zoom
  let neY := latToTileY (bounds.neLat : ℝ) zoom
  ⟨min swX neX, min swY neY, max swX neX, max swY neY⟩

/-- One slippy-map tile address. -/
structure Tile where
  x : ℤ
  y : ℤ
  z : ℕ
  deriving DecidableEq

/-- The nested for loop of prefetchBoundsAtZoom: enumerate every tile of
the rectangle, x outer and y inner, both inclusive. -/
def tileRect (tb : TileBounds) (zoom : ℕ) : List Tile :=
  (List.range (tb.maxX - tb.minX + 1).toNat).flatMap (fun i =>
    (List.range (tb.maxY - tb.minY + 1).toNat).map (fun j =>
      { x := tb.minX + i, y := tb.minY + j, z := zoom }))

/-- The per-batch cap of prefetchBoundsAtZoom. -/
def maxTiles : ℕ := 20

/-- The tile list a prefetchBoundsAtZoom batch actually fetches: the
enumerated rectangle truncated to the first maxTiles tiles. -/
noncomputable def tilesToFetch (bounds : Bounds) (zoom : ℕ) : List Tile :=
  (tileRect (getTileBounds bounds zoom) zoom).take maxTiles

/-- Slippy-map x index as the spec states it:
x = floor((lon + 180) / 360 * 2 ^ zoom). -/
noncomputable def slippyX (lon : ℝ) (zoom : ℕ) : ℤ :=
  ⌊(lon + 180) / 360 * 2 ^ zoom⌋

/-- Slippy-map y index as the spec states it: y = floor((1 -
ln(tan(lat * pi / 180) + 1 / cos(lat * pi / 180)) / pi) / 2 * 2 ^ zoom). -/
noncomputable def slippyY (lat : ℝ) (zoom : ℕ) : ℤ :=
  ⌊(1 - Real.log (Real.tan (lat * Real.pi / 180)
      + 1 / Real.cos (lat * Real.pi / 180)) / Real.pi) / 2 * 2 ^ zoom⌋

/-- C1: for every finite (lat, lon, zoom), the tile indices computed by
getTileBounds for each corner are exactly the standard slippy-map indices,
and the returned rectangle is their componentwise min and max. -/
theorem c1_getTileBounds_matches_slippy (lat lon : ℝ) (zoom : ℕ)
    (bounds : Bounds) :
    lonToTileX lon zoom = slippyX lon zoom ∧
    latToTileY lat zoom = slippyY lat zoom ∧
    getTileBounds bounds zoom =
      ⟨min (slippyX (bounds.swLng : ℝ) zoom) (slippyX (bounds.neLng : ℝ) zoom),
       min (slippyY (bounds.swLat : ℝ) zoom) (slippyY (bounds.neLat : ℝ) zoom),
       max (slippyX (bounds.swLng : ℝ) zoom) (slippyX (bounds.neLng : ℝ) zoom),
       max (slippyY (bounds.swLat : ℝ) zoom) (slippyY (bounds.neLat : ℝ) zoom)⟩ :=
  ⟨rfl, rfl, rfl⟩

/-- C10: getTileBounds always returns a rectangle with min at most max in
both coordinates, and the tile enumeration is exactly the finite rectangle
of (maxX - minX + 1) * (maxY - minY + 1) tiles. -/
theorem c10_tile_enumeration_finite (bounds : Bounds) (zoom : ℕ) :
    (getTileBounds bounds zoom).minX ≤ (getTileBounds bounds zoom).maxX ∧
    (getTileBounds bounds zoom).minY ≤ (getTileBounds bounds zoom).maxY ∧
    (tileRect (getTileBounds bounds zoom) zoom).length =
      ((getTileBounds bounds zoom).maxX - (getTileBounds bounds zoom).minX + 1).toNat *
        ((getTileBounds bounds zoom).maxY - (getTileBounds bounds zoom).minY + 1).toNat := by
  refine ⟨min_le_max, min_le_max, ?_⟩
  simp [tileRect, List.length_flatMap, Function.comp_def]

/-- C3: a single prefetchBoundsAtZoom pass fetches the enumerated tiles
truncated to the first maxTiles = 20, so it issues at most 20 requests. -/
theorem c3_batch_capped_at_twenty (bounds : Bounds) (zoom : ℕ) :
    tilesToFetch bounds zoom = (tileRect (getTileBounds bounds zoom) zoom).take 20 ∧
    (tilesToFetch bounds zoom).length ≤ 20 := by
  refine ⟨rfl, ?_⟩
  simp [tilesToFetch, maxTiles]

/-- The subdomain pool of prefetchTile. -/
def subdomains : List String := ["a", "b", "c", "d"]

/-- JS remainder: the % operator truncates toward zero, so the result has
the sign of the dividend. -/
def jsRem (a b : ℤ) : ℤ := Int.tmod a b

/-- JS array indexing with an integer index: any index outside 0..length-1
yields undefined (none). -/
def jsArrayGet (l : List String) (i : ℤ) : Option String :=
  if 0 ≤ i then l.get? i.toNat else none

/-- The URL built by prefetchTile for tile (x, y, z): the subdomain is
subdomains[(x + y) % 4] under JS semantics, interpolated into the template
(an out-of-range index interpolates as "undefined"). -/
def prefetchTileUrl (x y : ℤ) (z : ℕ) : String :=
  "https://" ++ jsShow (jsArrayGet subdomains (jsRem (x + y) 4))
    ++ ".basemaps.cartocdn.com/dark_all/" ++ toString z ++ "/"
    ++ toString x ++ "/" ++ toString y ++ ".png"

/-- One tile image request: the URL plus the onload and onerror handlers.
The handlers act on the state of the prefetch pass (modelled as the list
of URLs requested so far). -/
structure TileRequest where
  url : String
  onLoad : List String → List String
  onErr : List String → List String

/-- prefetchTile: build the URL, create the image and install the two
empty handlers (both closure bodies are empty, so both are the identity on
the pass state; no retry is scheduled anywhere). -/
def prefetchTile (x y : ℤ) (z : ℕ) : TileRequest :=
  { url := prefetchTileUrl x y z
    onLoad := fun s => s
    onErr := fun s => s }

/-- Run the requests of a batch against an outcome oracle: request number
i fails when fail i is true, in which case its onerror handler is applied
to the pass state, otherwise its onload handler.  The state records the
URLs requested so far. -/
def runBatchAux : List Tile → (ℕ → Bool) → ℕ → List String → List String
  | [], _, _, acc => acc
  | t :: ts, fail, i, acc =>
      let req := prefetchTile t.x t.y t.z
      let acc1 := acc ++ [req.url]
      let acc2 := if fail i then req.onErr acc1 else req.onLoad acc1
      runBatchAux ts fail (i + 1) acc2

/-- The requests issued by one batch, given an outcome oracle. -/
def runBatch (tiles : List Tile) (fail : ℕ → Bool) : List String :=
  runBatchAux tiles fail 0 []

theorem runBatchAux_eq (tiles : List Tile) (fail : ℕ → Bool) (i : ℕ)
    (acc : List String) :
    runBatchAux tiles fail i acc =
      acc ++ tiles.map (fun t => prefetchTileUrl t.x t.y t.z) := by
  induction tiles generalizing i acc with
  | nil => simp [runBatchAux]
  | cons t ts ih =>
      simp only [runBatchAux, prefetchTile]
      cases fail i <;> simp [ih]

/-- C6: a failed tile fetch is silently ignored.  The onerror handler of
every prefetchTile request is the identity on the pass state, and a batch
run issues exactly one request per enumerated tile, with a result that is
completely independent of which requests fail (no retry, no propagated
error). -/
theorem c6_tile_errors_ignored (x y : ℤ) (z : ℕ) (s : List String)
    (tiles : List Tile) (fail fail2 : ℕ → Bool) :
    (prefetchTile x y z).onErr s = s ∧
    runBatch tiles fail = runBatch tiles fail2 ∧
    runBatch tiles fail = tiles.map (fun t => prefetchTileUrl t.x t.y t.z) := by
  refine ⟨rfl, ?_, ?_⟩ <;> simp [runBatch, runBatchAux_eq]

/-- The subdomain as the spec reads: chosen from the pool by the index
(x + y) mod 4, mod being the mathematical (nonnegative) remainder. -/
def specSubdomain (x y : ℤ) : String :=
  subdomains.getD ((x + y) % 4).toNat ""

/-- The tile URL as claim C8 states it. -/
def specTileUrl (x y : ℤ) (z : ℕ) : String :=
  "https://" ++ specSubdomain x y ++ ".basemaps.cartocdn.com/dark_all/"
    ++ toString z ++ "/" ++ toString x ++ "/" ++ toString y ++ ".png"

/-- C8 counterexample: at tile (-1, 0, 5) the sum x + y is negative, the
JS remainder is -1, the subdomain lookup is undefined and the requested
URL interpolates the text "undefined"; the claimed round-robin URL would
use subdomain d.  So the claim fails as stated. -/
theorem c8_counterexample :
    (prefetchTile (-1) 0 5).url
        = "https://undefined.basemaps.cartocdn.com/dark_all/5/-1/0.png" ∧
    specTileUrl (-1) 0 5
        = "https://d.basemaps.cartocdn.com/dark_all/5/-1/0.png" ∧
    (prefetchTile (-1) 0 5).url ≠ specTileUrl (-1) 0 5 := by
  refine ⟨rfl, rfl, ?_⟩
  decide

/-- C8 amended: for every tile with x + y nonnegative (in particular every
tile with nonnegative indices), prefetchTile requests exactly the URL
https://s.basemaps.cartocdn.com/dark_all/z/x/y.png with subdomain s chosen
round-robin from a, b, c, d by the index (x + y) mod 4; when x + y is
negative and not a multiple of 4 the subdomain is the text "undefined". -/
theorem c8_url_roundrobin (x y : ℤ) (z : ℕ) (h : 0 ≤ x + y) :
    (prefetchTile x y z).url = specTileUrl x y z := by
  have hrem : (x + y).tmod 4 = (x + y) % 4 :=
    Int.tmod_eq_emod h (by norm_num)
  have h0 : 0 ≤ (x + y) % 4 := Int.emod_nonneg _ (by norm_num)
  have h4 : (x + y) % 4 < 4 := Int.emod_lt_of_pos _ (by norm_num)
  have : (x + y) % 4 = 0 ∨ (x + y) % 4 = 1 ∨ (x + y) % 4 = 2 ∨ (x + y) % 4 = 3 := by
    omega
  rcases this with h' | h' | h' | h' <;>
    simp [prefetchTile, prefetchTileUrl, specTileUrl, specSubdomain, jsRem,
      jsArrayGet, hrem, h', subdomains, jsShow]

/-- C8 witness: the amended theorem evaluated at tile (1, 2, 3). -/
theorem c8_url_roundrobin_witness :
    (prefetchTile 1 2 3).url = specTileUrl 1 2 3 :=
  c8_url_roundrobin 1 2 3 (by norm_num)

/-- The timer chain of prefetchBoundsAtZoom: prefetchNext issues the next
tile at the current instant and schedules itself 50 ms later, so tile
number i of a batch started at instant t0 is requested at t0 + 50 * i.
Times are in milliseconds. -/
def prefetchNextSchedule : List Tile → ℕ → List (ℕ × Tile)
  | [], _ => []
  | t :: ts, now => (now, t) :: prefetchNextSchedule ts (now + 50)

theorem prefetchNextSchedule_get? (tiles : List Tile) (t0 i : ℕ)
    (e : ℕ × Tile) (h : (prefetchNextSchedule tiles t0).get? i = some e) :
    e.1 = t0 + 50 * i := by
  induction tiles generalizing t0 i with
  | nil => simp [prefetchNextSchedule] at h
  | cons t ts ih =>
      cases i with
      | zero =>
          simp [prefetchNextSchedule] at h
          simp [← h]
      | succ j =>
          have := ih (t0 + 50) j (by simpa [prefetchNextSchedule] using h)
          omega

/-- C5: within a single batch, consecutive tile requests are exactly 50 ms
apart: whenever entries i and i+1 exist in the timer schedule of a batch,
their instants differ by 50. -/
theorem c5_fixed_delay (tiles : List Tile) (t0 i : ℕ) (e e2 : ℕ × Tile)
    (h : (prefetchNextSchedule tiles t0).get? i = some e)
    (h2 : (prefetchNextSchedule tiles t0).get? (i + 1) = some e2) :
    e2.1 = e.1 + 50 := by
  have he := prefetchNextSchedule_get? tiles t0 i e h
  have he2 := prefetchNextSchedule_get? tiles t0 (i + 1) e2 h2
  omega

/-- C5 witness: the delay theorem evaluated on a concrete two-tile batch
started at instant 0. -/
theorem c5_fixed_delay_witness :
    (prefetchNextSchedule [⟨0, 0, 0⟩, ⟨1, 0, 0⟩] 0).get? 0 = some (0, ⟨0, 0, 0⟩) ∧
    (prefetchNextSchedule [⟨0, 0, 0⟩, ⟨1, 0, 0⟩] 0).get? 1 = some (50, ⟨1, 0, 0⟩) ∧
    ((50 : ℕ), Tile.mk 1 0 0).1 = ((0 : ℕ), Tile.mk 0 0 0).1 + 50 :=
  ⟨rfl, rfl, c5_fixed_delay [⟨0, 0, 0⟩, ⟨1, 0, 0⟩] 0 0 (0, ⟨0, 0, 0⟩)
    (50, ⟨1, 0, 0⟩) rfl rfl⟩

/-- Continental batches: for each continent group with at least one
coordinate, one batch at zoom 4 and one at zoom 6 over the bounds padded
by 0.15. -/
noncomputable def regionBatches (posts : List Post) : List (List Tile) :=
  (buildGroups posts).regions.flatMap (fun e =>
    if 0 < e.2.length then
      [tilesToFetch (pad (latLngBounds e.2) (3 / 20)) 4,
       tilesToFetch (pad (latLngBounds e.2) (3 / 20)) 6]
    else [])

/-- Country batches: zoom 8 and zoom 10 over the bounds padded by 0.2. -/
noncomputable def countryBatches (posts : List Post) : List (List Tile) :=
  (buildGroups posts).countries.flatMap (fun e =>
    if 0 < e.2.length then
      [tilesToFetch (pad (latLngBounds e.2) (1 / 5)) 8,
       tilesToFetch (pad (latLngBounds e.2) (1 / 5)) 10]
    else [])

/-- City batches: only for city groups with more than one coordinate, zoom
12 and zoom 14 over the bounds padded by 0.3. -/
noncomputable def cityBatches (posts : List Post) : List (List Tile) :=
  (buildGroups posts).cities.flatMap (fun e =>
    if 1 < e.2.length then
      [tilesToFetch (pad (latLngBounds e.2) (3 / 10)) 12,
       tilesToFetch (pad (latLngBounds e.2) (3 / 10)) 14]
    else [])

/-- The batches started by one run of prefetchTilesForCoffeePosts, in
creation order: continents, then countries, then cities, each group
contributing its lower zoom level immediately followed by its higher
one. -/
noncomputable def prefetchBatches (posts : List Post) : List (List Tile) :=
  regionBatches posts ++ countryBatches posts ++ cityBatches posts

/-- Length of the longest batch. -/
def maxLen {α : Type} (bs : List (List α)) : ℕ :=
  (bs.map List.length).foldr max 0

/-- The request emission order produced by the JS event loop: every batch
is started synchronously during the same task (in batch creation order),
and request number k of a batch fires on its k-th 50 ms timer tick.  All
ticks of round k are due before any tick of round k + 1, and inside one
round the timers fire in batch creation order, so the emissions are the
k-th elements of every batch, round by round, tagged with the batch
index. -/
def roundRobinTagged {α : Type} (bs : List (List α)) : List (ℕ × α) :=
  (List.range (maxLen bs)).flatMap (fun k =>
    (List.range bs.length).filterMap (fun b =>
      ((bs.getD b []).get? k).map (fun a => (b, a))))

/-- The timestamped request order of a whole prefetch run, tagged by batch
index. -/
noncomputable def prefetchEmissions (posts : List Post) : List (ℕ × Tile) :=
  roundRobinTagged (prefetchBatches posts)

/-- The ordering claim C4 states: emissions never return to an earlier
batch, i.e. the batch tags are nondecreasing along the emission order
(batches are created group-by-group and zoom-ascending, so this is
exactly: groups one after another, lower zoom fully before higher
zoom). -/
def batchMajor (posts : List Post) : Prop :=
  List.Chain' (· ≤ ·) ((prefetchEmissions posts).map Prod.fst)

theorem addCoord_keys (m : List (String × List Coord)) (k : String)
    (c : Coord) :
    ((addCoord m k c).map Prod.fst = m.map Prod.fst) ∨
      ((addCoord m k c).map Prod.fst = m.map Prod.fst ++ [k]) := by
  unfold addCoord
  split
  · left
    rw [List.map_map]
    apply List.map_congr_left
    intro e _
    by_cases h : e.1 = k <;> simp [h]
  · right
    simp

theorem addCoord_all (m : List (String × List Coord)) (k : String)
    (c : Coord) (bad : String)
    (hm : (m.map Prod.fst).all (fun s => s != bad) = true)
    (hk : k ≠ bad) :
    (((addCoord m k c).map Prod.fst).all (fun s => s != bad)) = true := by
  rcases addCoord_keys m k c with h | h <;> rw [h]
  · exact hm
  · simp [List.all_append, hm, hk]

/-- The invariant that no grouping key equals its Unknown placeholder. -/
def keysOK (g : Groups) : Prop :=
  (g.regions.map Prod.fst).all (fun s => s != "unknown") = true ∧
    (g.countries.map Prod.fst).all (fun s => s != "Unknown") = true ∧
    (g.cities.map Prod.fst).all (fun s => s != "Unknown") = true

theorem stepRegions_keysOK (g : Groups) (c : Coord) (o : Option String)
    (h : keysOK g) : keysOK (stepRegions g c o) := by
  obtain ⟨h1, h2, h3⟩ := h
  cases o with
  | none => exact ⟨h1, h2, h3⟩
  | some s =>
      simp only [stepRegions]
      split
      · rename_i hguard
        refine ⟨?_, h2, h3⟩
        have : normalizeContinent s ≠ "unknown" := by
          simp only [Bool.and_eq_true, bne_iff_ne, ne_eq] at hguard
          exact hguard.2
        exact addCoord_all _ _ _ _ h1 this
      · exact ⟨h1, h2, h3⟩

theorem stepCountries_keysOK (g : Groups) (c : Coord) (o : Option String)
    (h : keysOK g) : keysOK (stepCountries g c o) := by
  obtain ⟨h1, h2, h3⟩ := h
  cases o with
  | none => exact ⟨h1, h2, h3⟩
  | some s =>
      simp only [stepCountries]
      split
      · rename_i hguard
        refine ⟨h1, ?_, h3⟩
        have : s ≠ "Unknown" := by
          simp only [Bool.and_eq_true, bne_iff_ne, ne_eq] at hguard
          exact hguard.2
        exact addCoord_all _ _ _ _ h2 this
      · exact ⟨h1, h2, h3⟩

theorem stepCities_keysOK (g : Groups) (c : Coord) (o : Option String)
    (h : keysOK g) : keysOK (stepCities g c o) := by
  obtain ⟨h1, h2, h3⟩ := h
  cases o with
  | none => exact ⟨h1, h2, h3⟩
  | some s =>
      simp only [stepCities]
      split
      · rename_i hguard
        refine ⟨h1, h2, ?_⟩
        have : s ≠ "Unknown" := by
          simp only [Bool.and_eq_true, bne_iff_ne, ne_eq] at hguard
          exact hguard.2
        exact addCoord_all _ _ _ _ h3 this
      · exact ⟨h1, h2, h3⟩

theorem groupStep_keysOK (g : Groups) (p : Post) (h : keysOK g) :
    keysOK (groupStep g p) := by
  unfold groupStep
  split
  · exact h
  · exact stepCities_keysOK _ _ _
      (stepCountries_keysOK _ _ _ (stepRegions_keysOK _ _ _ h))

theorem foldl_groupStep_keysOK (posts : List Post) (g : Groups)
    (h : keysOK g) : keysOK (posts.foldl groupStep g) := by
  induction posts generalizing g with
  | nil => exact h
  | cons p ps ih => exact ih _ (groupStep_keysOK g p h)

theorem flatMap_if_eq_filter {α β : Type} (l : List α) (p : α → Prop)
    [DecidablePred p] (f : α → List β) :
    (l.flatMap (fun e => if p e then f e else [])) =
      (l.filter (fun e => decide (p e))).flatMap f := by
  induction l with
  | nil => simp
  | cons a as ih =>
      by_cases h : p a <;> simp [List.filter_cons, h, ih]

/-- C7: grouping drops the Unknown placeholders — no continent group is
keyed by the normalized placeholder "unknown" and no country or city
group is keyed by "Unknown" — and city batches are built exactly for the
city groups with more than one member. -/
theorem c7_grouping_drops_unknown (posts : List Post) :
    ((buildGroups posts).regions.map Prod.fst).all (fun s => s != "unknown") = true ∧
    ((buildGroups posts).countries.map Prod.fst).all (fun s => s != "Unknown") = true ∧
    ((buildGroups posts).cities.map Prod.fst).all (fun s => s != "Unknown") = true ∧
    cityBatches posts =
      ((buildGroups posts).cities.filter (fun e => 1 < e.2.length)).flatMap
        (fun e =>
          [tilesToFetch (pad (latLngBounds e.2) (3 / 10)) 12,
           tilesToFetch (pad (latLngBounds e.2) (3 / 10)) 14]) := by
  obtain ⟨h1, h2, h3⟩ := foldl_groupStep_keysOK posts
    { regions := [], countries := [], cities := [] } ⟨rfl, rfl, rfl⟩
  exact ⟨h1, h2, h3, flatMap_if_eq_filter _ _ _⟩

/-- C9: a post whose latitude or longitude is 0, null or undefined is
excluded from marker creation and from all tile-prefetch grouping —
appending such a post to any input changes neither the marker list nor
the groups. -/
theorem c9_zero_coords_excluded (posts : List Post) (p : Post)
    (h : p.latitude = some 0 ∨ p.latitude = none ∨
      p.longitude = some 0 ∨ p.longitude = none) :
    markersOf (posts ++ [p]) = markersOf posts ∧
      buildGroups (posts ++ [p]) = buildGroups posts := by
  have hc : hasCoords p = false := by
    rcases h with h | h | h | h <;> simp [hasCoords, truthyNum, h]
  have hlat : (!(truthyNum p.latitude) || !(truthyNum p.longitude)) = true := by
    simp only [hasCoords, Bool.and_eq_false_iff] at hc
    rcases hc with hc | hc <;> simp [hc]
  constructor
  · simp [markersOf, List.foldl_append, hc]
  · simp [buildGroups, List.foldl_append, groupStep, hlat]

/-- A post sitting exactly on the equator, for the C9 witness. -/
def zPost : Post :=
  { latitude := some 0, longitude := some 5, continent := some "Asia",
    country := some "Ghana", city := some "Accra", title := "t", url := "u" }

/-- C9 witness: the exclusion theorem evaluated on the empty post list and
a concrete post with latitude 0. -/
theorem c9_zero_coords_excluded_witness :
    markersOf ([] ++ [zPost]) = markersOf [] ∧
      buildGroups ([] ++ [zPost]) = buildGroups [] :=
  c9_zero_coords_excluded [] zPost (Or.inl rfl)

theorem mem_le_maxLen {α : Type} {bs : List (List α)} {l : List α}
    (h : l ∈ bs) : l.length ≤ maxLen bs := by
  induction bs with
  | nil => cases h
  | cons a as ih =>
      rcases List.mem_cons.mp h with rfl | h
      · exact le_max_left _ _
      · exact le_trans (ih h) (le_max_right _ _)

theorem getD_length_le_maxLen {α : Type} (bs : List (List α)) (b : ℕ) :
    (bs.getD b []).length ≤ maxLen bs := by
  by_cases hb : b < bs.length
  · rw [List.getD_eq_getElem _ _ hb]
    exact mem_le_maxLen (List.getElem_mem hb)
  · rw [List.getD_eq_default _ _ (by omega)]
    exact Nat.zero_le _

theorem range_flatMap_get?_of_len {α : Type} (l : List α) :
    (List.range l.length).flatMap (fun k => (l.get? k).toList) = l := by
  induction l with
  | nil => simp
  | cons a as ih =>
      rw [List.length_cons, List.range_succ_eq_map, List.flatMap_cons,
        List.flatMap_map]
      simpa using ih

theorem range_flatMap_get? {α : Type} (l : List α) (n : ℕ)
    (h : l.length ≤ n) :
    (List.range n).flatMap (fun k => (l.get? k).toList) = l := by
  obtain ⟨d, rfl⟩ : ∃ d, n = l.length + d := ⟨n - l.length, by omega⟩
  rw [List.range_add, List.flatMap_append, List.flatMap_map]
  have h2 : (List.range d).flatMap
      (fun x => (l.get? (l.length + x)).toList) = [] := by
    apply List.flatMap_eq_nil_iff.mpr
    intro x _
    rw [List.get?_eq_none.mpr (by omega)]
    rfl
  rw [h2, List.append_nil, range_flatMap_get?_of_len]

theorem filter_tag_filterMap {α : Type} (N : ℕ) (f : ℕ → Option α) (b : ℕ) :
    (((List.range N).filterMap (fun j => (f j).map (fun a => (j, a)))).filter
        (fun e => e.1 == b)) =
      if b < N then ((f b).map (fun a => (b, a))).toList else [] := by
  induction N with
  | zero => simp
  | succ n ih =>
      rw [List.range_succ, List.filterMap_append, List.filter_append, ih]
      by_cases hb : b < n
      · have hbn : b ≠ n := by omega
        have : (b < n + 1) = True := by simp; omega
        cases hfn : f n <;>
          simp [hb, hfn, Nat.lt_succ_of_lt hb, Ne.symm hbn, hbn]
      · by_cases heq : b = n
        · subst heq
          cases hfn : f b <;> simp [hb, hfn]
        · have : ¬ b < n + 1 := by omega
          cases hfn : f n <;> simp [hb, hfn, this, Ne.symm heq, heq]

theorem roundRobin_filter_tag {α : Type} (bs : List (List α)) (b : ℕ) :
    (((roundRobinTagged bs).filter (fun e => e.1 == b)).map Prod.snd) =
      bs.getD b [] := by
  unfold roundRobinTagged
  rw [List.filter_flatMap]
  have huni : ∀ k : ℕ,
      (((List.range bs.length).filterMap (fun j =>
          ((bs.getD j []).get? k).map (fun a => (j, a)))).filter
        (fun e => e.1 == b)) =
        (((bs.getD b []).get? k).map (fun a => (b, a))).toList := by
    intro k
    rw [filter_tag_filterMap bs.length (fun j => (bs.getD j []).get? k) b]
    by_cases hb : b < bs.length
    · simp [hb]
    · rw [if_neg hb, List.getD_eq_default _ _ (by omega)]
      simp
  have hsnd : ∀ k : ℕ,
      ((((bs.getD b []).get? k).map (fun a => (b, a))).toList).map Prod.snd =
        ((bs.getD b []).get? k).toList := by
    intro k
    cases hk : (bs.getD b []).get? k <;> simp [hk]
  simp only [huni, List.map_flatMap, hsnd]
  exact range_flatMap_get? _ _ (getD_length_le_maxLen bs b)

/-- C4 amended: batches are created group-by-group and zoom-ascending and
each single batch issues its requests in order — for every batch index b,
the emissions tagged b are exactly batch b in its original order — but
requests of different batches interleave round-robin on the 50 ms timers
instead of one group finishing before the next starts. -/
theorem c4_amended_within_batch_order (posts : List Post) (b : ℕ) :
    (((prefetchEmissions posts).filter (fun e => e.1 == b)).map Prod.snd) =
      (prefetchBatches posts).getD b [] :=
  roundRobin_filter_tag (prefetchBatches posts) b

/-- First post of the C4 counterexample run: continent Asia, no country
or city, coordinates (40, -10). -/
def cPost1 : Post :=
  { latitude := some 40, longitude := some (-10), continent := some "Asia",
    country := none, city := none, title := "p1", url := "u1" }

/-- Second post of the C4 counterexample run: continent Asia, no country
or city, coordinates (40, 10). -/
def cPost2 : Post :=
  { latitude := some 40, longitude := some 10, continent := some "Asia",
    country := none, city := none, title := "p2", url := "u2" }

/-- The two-post input of the C4 counterexample. -/
def cPosts : List Post := [cPost1, cPost2]

/-- The (never evaluated) common tile row of the counterexample batches:
both corners sit at latitude 40, so each batch is a single tile row. -/
noncomputable def cY (z : ℕ) : ℤ := latToTileY ((40 : ℚ) : ℝ) z

theorem cPosts_groups :
    buildGroups cPosts =
      { regions := [("asia", [(40, -10), (40, 10)])], countries := [],
        cities := [] } := by
  decide

theorem cPosts_bounds :
    pad (latLngBounds [(40, -10), (40, 10)]) (3 / 20) = ⟨40, -13, 40, 13⟩ := by
  norm_num [latLngBounds, pad, min_def, max_def, abs]

theorem lonX_m13_z4 : lonToTileX ((-13 : ℚ) : ℝ) 4 = 7 := by
  rw [lonToTileX, Int.floor_eq_iff]
  norm_num

theorem lonX_p13_z4 : lonToTileX ((13 : ℚ) : ℝ) 4 = 8 := by
  rw [lonToTileX, Int.floor_eq_iff]
  norm_num

theorem lonX_m13_z6 : lonToTileX ((-13 : ℚ) : ℝ) 6 = 29 := by
  rw [lonToTileX, Int.floor_eq_iff]
  norm_num

theorem lonX_p13_z6 : lonToTileX ((13 : ℚ) : ℝ) 6 = 34 := by
  rw [lonToTileX, Int.floor_eq_iff]
  norm_num

theorem cTileBounds_z4 :
    getTileBounds ⟨40, -13, 40, 13⟩ 4 = ⟨7, cY 4, 8, cY 4⟩ := by
  simp only [getTileBounds, lonX_m13_z4, lonX_p13_z4, cY]
  norm_num

theorem cTileBounds_z6 :
    getTileBounds ⟨40, -13, 40, 13⟩ 6 = ⟨29, cY 6, 34, cY 6⟩ := by
  simp only [getTileBounds, lonX_m13_z6, lonX_p13_z6, cY]
  norm_num

theorem cTiles_z4 :
    tilesToFetch ⟨40, -13, 40, 13⟩ 4 = [⟨7, cY 4, 4⟩, ⟨8, cY 4, 4⟩] := by
  have h1 : ((8 : ℤ) - 7 + 1).toNat = 2 := by decide
  have h2 : (cY 4 - cY 4 + 1).toNat = 1 := by simp
  simp only [tilesToFetch, cTileBounds_z4, tileRect, h1, h2]
  simp [List.range_succ, maxTiles]

theorem cTiles_z6 :
    tilesToFetch ⟨40, -13, 40, 13⟩ 6 =
      [⟨29, cY 6, 6⟩, ⟨30, cY 6, 6⟩, ⟨31, cY 6, 6⟩, ⟨32, cY 6, 6⟩,
       ⟨33, cY 6, 6⟩, ⟨34, cY 6, 6⟩] := by
  have h1 : ((34 : ℤ) - 29 + 1).toNat = 6 := by decide
  have h2 : (cY 6 - cY 6 + 1).toNat = 1 := by simp
  simp only [tilesToFetch, cTileBounds_z6, tileRect, h1, h2]
  simp [List.range_succ, maxTiles]

theorem cPosts_batches :
    prefetchBatches cPosts =
      [[⟨7, cY 4, 4⟩, ⟨8, cY 4, 4⟩],
       [⟨29, cY 6, 6⟩, ⟨30, cY 6, 6⟩, ⟨31, cY 6, 6⟩, ⟨32, cY 6, 6⟩,
        ⟨33, cY 6, 6⟩, ⟨34, cY 6, 6⟩]] := by
  rw [prefetchBatches, regionBatches, countryBatches, cityBatches,
    cPosts_groups]
  simp only [List.flatMap_cons, List.flatMap_nil]
  rw [cPosts_bounds]
  simp [cTiles_z4, cTiles_z6]

/-- C4 counterexample: on the two-post run cPosts the emission order
returns to the zoom-4 batch of the asia group after the zoom-6 batch of
the same group has already issued its first request, so requests are not
issued batch-after-batch. -/
theorem c4_counterexample_not_batch_major : ¬ batchMajor cPosts := by
  have h : (prefetchEmissions cPosts).map Prod.fst =
      [0, 1, 0, 1, 1, 1, 1, 1] := by
    rw [prefetchEmissions, cPosts_batches]
    rfl
  rw [batchMajor, h]
  simp [List.chain'_cons]

/-- Modelled from the spec: a raw record of an external export batch (the
admin tool itself is not part of the repository sources; only its
documentation is).  Content fields are the ones the spec says feed the
dedup hash, plus the location fields that get the Unknown default. -/
structure SourceRecord where
  title : String
  date : String
  caption : String
  city : Option String
  country : Option String
  continent : Option String
  deriving DecidableEq

/-- Modelled from the spec: normalization defaults missing city, country
and continent to the sentinel "Unknown". -/
def normalizeRecord (r : SourceRecord) : SourceRecord :=
  { r with
    city := some (r.city.getD "Unknown")
    country := some (r.country.getD "Unknown")
    continent := some (r.continent.getD "Unknown") }

/-- Modelled from the spec: the dedup hash is a deterministic fingerprint
of the normalized content — title, date and caption. -/
def dedupHash (r : SourceRecord) : String :=
  (normalizeRecord r).title ++ "|" ++ (normalizeRecord r).date ++ "|"
    ++ (normalizeRecord r).caption

/-- Modelled from the spec: one stored post row, keyed by id, carrying the
unique dedup hash. -/
structure StoredPost where
  id : ℕ
  hash : String
  title : String
  deriving DecidableEq

/-- Modelled from the spec: the Post Store — the rows in insertion order
plus the next fresh id. -/
structure PostStore where
  rows : List StoredPost
  nextId : ℕ
  deriving DecidableEq

/-- Lookup of a row by hash. -/
def findByHash (s : PostStore) (h : String) : Option StoredPost :=
  s.rows.find? (fun row => row.hash == h)

/-- Modelled from the spec: insert is a no-op returning the existing id
when the hash is already present, and otherwise appends a fresh row. -/
def insertPost (s : PostStore) (r : SourceRecord) : ℕ × PostStore :=
  match findByHash s (dedupHash r) with
  | some row => (row.id, s)
  | none =>
      (s.nextId,
       { rows := s.rows ++ [{ id := s.nextId, hash := dedupHash r,
                              title := r.title }],
         nextId := s.nextId + 1 })

/-- Result of an import run: the store plus inserted/skipped counts. -/
structure ImportResult where
  store : PostStore
  inserted : ℕ
  skipped : ℕ
  deriving DecidableEq

/-- Modelled from the spec: the Importer walks the batch, hashes each
record, attempts the insert and counts inserted versus skipped
duplicates. -/
def importBatch (s : PostStore) : List SourceRecord → ImportResult
  | [] => { store := s, inserted := 0, skipped := 0 }
  | r :: rs =>
      match findByHash s (dedupHash r) with
      | some _ =>
          let res := importBatch s rs
          { res with skipped := res.skipped + 1 }
      | none =>
          let res := importBatch (insertPost s r).2 rs
          { res with inserted := res.inserted + 1 }

/-- Hash presence as a Boolean. -/
def hasHash (s : PostStore) (h : String) : Bool :=
  s.rows.any (fun row => row.hash == h)

theorem findByHash_isSome_iff (s : PostStore) (h : String) :
    (findByHash s h).isSome = true ↔ hasHash s h = true := by
  simp [findByHash, hasHash, List.find?_isSome]

theorem hasHash_insertPost (s : PostStore) (r : SourceRecord) (h : String)
    (hs : hasHash s h = true) : hasHash (insertPost s r).2 h = true := by
  unfold insertPost
  cases hf : findByHash s (dedupHash r) with
  | some row => exact hs
  | none => simp only [hasHash] at hs ⊢; simp [List.any_append, hs]

theorem hasHash_insertPost_self (s : PostStore) (r : SourceRecord)
    (hf : findByHash s (dedupHash r) = none) :
    hasHash (insertPost s r).2 (dedupHash r) = true := by
  unfold insertPost
  rw [hf]
  simp [hasHash, List.any_append]

theorem hasHash_importBatch (s : PostStore) (rs : List SourceRecord)
    (h : String) (hs : hasHash s h = true) :
    hasHash (importBatch s rs).store h = true := by
  induction rs generalizing s with
  | nil => exact hs
  | cons r rs ih =>
      unfold importBatch
      cases hf : findByHash s (dedupHash r) with
      | some row => exact ih s hs
      | none => exact ih _ (hasHash_insertPost s r h hs)

theorem importBatch_hashes_present (s : PostStore) (rs : List SourceRecord)
    (r : SourceRecord) (hr : r ∈ rs) :
    hasHash (importBatch s rs).store (dedupHash r) = true := by
  induction rs generalizing s with
  | nil => cases hr
  | cons q qs ih =>
      unfold importBatch
      rcases List.mem_cons.mp hr with rfl | hr2
      · cases hf : findByHash s (dedupHash r) with
        | some row =>
            have : hasHash s (dedupHash r) = true := by
              rw [← findByHash_isSome_iff, hf]
              rfl
            exact hasHash_importBatch s qs _ this
        | none =>
            exact hasHash_importBatch _ qs _ (hasHash_insertPost_self s r hf)
      · cases hf : findByHash s (dedupHash q) with
        | some row => exact ih s hr2
        | none => exact ih _ hr2

theorem importBatch_all_present (s : PostStore) (rs : List SourceRecord)
    (hall : ∀ r ∈ rs, hasHash s (dedupHash r) = true) :
    importBatch s rs = { store := s, inserted := 0, skipped := rs.length } := by
  induction rs with
  | nil => rfl
  | cons r qs ih =>
      unfold importBatch
      cases hf : findByHash s (dedupHash r) with
      | some row =>
          rw [ih (fun q hq => hall q (List.mem_cons_of_mem r hq))]
          simp
      | none =>
          exfalso
          have := hall r (List.mem_cons_self r qs)
          rw [← findByHash_isSome_iff, hf] at this
          simp at this

/-- C2: importing is idempotent.  Inserting a record whose dedup hash is
already in the Post Store is a no-op returning the existing id, and
re-running the Importer on an unchanged batch leaves the store unchanged,
inserts zero records and skips the whole batch. -/
theorem c2_import_idempotent (s : PostStore) (r : SourceRecord)
    (row : StoredPost) (batch : List SourceRecord)
    (hf : findByHash s (dedupHash r) = some row) :
    insertPost s r = (row.id, s) ∧
    importBatch (importBatch s batch).store batch =
      { store := (importBatch s batch).store, inserted := 0,
        skipped := batch.length } := by
  constructor
  · unfold insertPost
    rw [hf]
  · exact importBatch_all_present _ batch
      (fun q hq => importBatch_hashes_present s batch q hq)

/-- A store with one already-imported row, for the C2 witness. -/
def wStore : PostStore :=
  { rows := [{ id := 1, hash := "p1|d1|c1", title := "p1" }], nextId := 2 }

/-- The already-imported source record of the C2 witness. -/
def wRec : SourceRecord :=
  { title := "p1", date := "d1", caption := "c1", city := none,
    country := none, continent := none }

/-- C2 witness: the idempotence theorem evaluated on a concrete store and
a one-record batch whose hash is already present. -/
theorem c2_import_idempotent_witness :
    insertPost wStore wRec = (1, wStore) ∧
    importBatch (importBatch wStore [wRec]).store [wRec] =
      { store := (importBatch wStore [wRec]).store, inserted := 0,
        skipped := 1 } :=
  c2_import_idempotent wStore wRec
    { id := 1, hash := "p1|d1|c1", title := "p1" } [wRec] rfl

end WCT
